import Mathlib

/-!
Verification of the two scalar codecs of the `github-types` repository:
the Git object-id codec (`src/oid.rs`) and the timestamp codec
(`src/datetime.rs`).

Strings that cross the Rust codec boundary are modelled at the byte level
(`List Nat`, UTF-8 code units), because the hex decoder of `src/oid.rs`
operates on the byte slice of the input `&str` (so `v.len()` is the byte
length).  All concrete inputs appearing in the claims are ASCII, where
bytes and characters coincide.
-/

/-! ## Object-id codec: `src/oid.rs`

`Oid` is `pub struct Oid([u8; 20])`.  Hex decoding is done by the `hex`
crate (v0.3), function `<[u8; 20]>::from_hex`; hex encoding by
`ToHex::write_hex` / `write_hex_upper` over the table
`b"0123456789abcdef"`.  Both are modelled here byte for byte.
-/

instance {ε α : Type} [DecidableEq ε] [DecidableEq α] : DecidableEq (Except ε α) := fun a b =>
  match a, b with
  | .error e1, .error e2 =>
    match decEq e1 e2 with
    | isTrue h => isTrue (h ▸ rfl)
    | isFalse h => isFalse fun hc => h (by injection hc)
  | .ok v1, .ok v2 =>
    match decEq v1 v2 with
    | isTrue h => isTrue (h ▸ rfl)
    | isFalse h => isFalse fun hc => h (by injection hc)
  | .error e1, .ok v2 => isFalse fun hc => Except.noConfusion hc
  | .ok v1, .error e2 => isFalse fun hc => Except.noConfusion hc

/-- Error type `hex::FromHexError` of the `hex` crate (v0.3). -/
inductive FromHexError where
  | invalidHexCharacter (c : Nat) (index : Nat)
  | oddLength
  | invalidStringLength
deriving DecidableEq

/-- The hex crate's `val(c: u8, idx: usize)`: value of one hex digit byte.
`b'A'..=b'F' => c - b'A' + 10`, `b'a'..=b'f' => c - b'a' + 10`,
`b'0'..=b'9' => c - b'0'`, anything else is `InvalidHexCharacter`. -/
def hexVal (c : Nat) (index : Nat) : Except FromHexError Nat :=
  if 65 ≤ c ∧ c ≤ 70 then .ok (c - 65 + 10)
  else if 97 ≤ c ∧ c ≤ 102 then .ok (c - 97 + 10)
  else if 48 ≤ c ∧ c ≤ 57 then .ok (c - 48)
  else .error (.invalidHexCharacter c index)

/-- The decode loop of `Vec::<u8>::from_hex` (hex crate v0.3): over the
two-byte chunks, `val(pair[0], 2*i)? << 4 | val(pair[1], 2*i+1)?`.
The single-element case is unreachable because the caller has already
checked that the input length is even. -/
def hexPairs : List Nat → Nat → Except FromHexError (List Nat)
  | [], _ => .ok []
  | [c], i => .error (.invalidHexCharacter c (2 * i))
  | hi :: lo :: rest, i =>
    match hexVal hi (2 * i) with
    | .error e => .error e
    | .ok h =>
      match hexVal lo (2 * i + 1) with
      | .error e => .error e
      | .ok l =>
        match hexPairs rest (i + 1) with
        | .error e => .error e
        | .ok tail => .ok ((16 * h + l) :: tail)

/-- `Vec::<u8>::from_hex` of the hex crate (v0.3): reject an odd length,
then decode the digit pairs left to right. -/
def vecFromHex (hex : List Nat) : Except FromHexError (List Nat) :=
  if hex.length % 2 ≠ 0 then .error .oddLength
  else hexPairs hex 0

/-- `<[u8; 20]>::from_hex` of the hex crate (v0.3):
`let vec = Vec::from_hex(hex)?;` followed by the length comparison
`if vec.len() != 20 { InvalidStringLength }`.  A non-hex character is
therefore reported before the length-40 check. -/
def arrayFromHex20 (hex : List Nat) : Except FromHexError (List Nat) :=
  match vecFromHex hex with
  | .error e => .error e
  | .ok bs => if bs.length ≠ 20 then .error .invalidStringLength else .ok bs

/-- `pub struct Oid([u8; 20])`.  The 20 bytes, each below 256. -/
structure Oid where
  bytes : List Nat
deriving DecidableEq

/-- `Oid::from_hex`: `Ok(Oid(<[u8; 20]>::from_hex(s).map_err(|_| ())?))`.
Note that the error is discarded and replaced by the unit value. -/
def Oid.from_hex (s : List Nat) : Except Unit Oid :=
  match arrayFromHex20 s with
  | .ok bs => .ok ⟨bs⟩
  | .error _ => .error ()

/-- `Oid::EMPTY_TREE`: the sha of the empty tree. -/
def Oid.EMPTY_TREE : Oid :=
  ⟨[0x4b, 0x82, 0x5d, 0xc6, 0x42, 0xcb, 0x6e, 0xb9, 0xa0, 0x60, 0xe5, 0x4b,
    0xf8, 0xd6, 0x92, 0x88, 0xfb, 0xee, 0x49, 0x04]⟩

/-- `Oid::ZERO`: a sha of all zeros. -/
def Oid.ZERO : Oid :=
  ⟨[0x00, 0x00, 0x00, 0x00, 0x00, 0x00, 0x00, 0x00, 0x00, 0x00, 0x00, 0x00,
    0x00, 0x00, 0x00, 0x00, 0x00, 0x00, 0x00, 0x00]⟩

/-- The `#[derive(Default)]` value of `Oid`: `[u8; 20]::default()`,
twenty zero bytes. -/
def Oid.defaultOid : Oid := ⟨List.replicate 20 0⟩

/-- Errors produced through the serde `de::Error` interface, with the
information each constructor of the Rust code puts into them:
`invalid_value(Unexpected::Char(c), expected)`, `invalid_length(len,
expected)` and `custom(msg)`. -/
inductive SerdeErr where
  | invalidValueChar (c : Nat) (expected : String)
  | invalidLength (len : Nat) (expected : String)
  | custom (msg : String)
deriving DecidableEq

/-- `OidVisitor::visit_str`: run `<[u8; 20]>::from_hex` and translate each
`FromHexError` constructor into the serde error the source builds for it. -/
def oidVisitStr (v : List Nat) : Except SerdeErr Oid :=
  match arrayFromHex20 v with
  | .ok bs => .ok ⟨bs⟩
  | .error (.invalidHexCharacter c _) =>
      .error (.invalidValueChar c "string with only hexadecimal characters")
  | .error .invalidStringLength =>
      .error (.invalidLength v.length "hex string with a valid length")
  | .error .oddLength =>
      .error (.invalidLength v.length "hex string with an even length")

/-- `OidVisitor::visit_bytes`: reject any length other than 20, otherwise
copy the bytes. -/
def oidVisitBytes (v : List Nat) : Except SerdeErr Oid :=
  if v.length ≠ 20 then .error (.invalidLength v.length "20 bytes")
  else .ok ⟨v⟩

/-- `CHARS[d]` for `CHARS = b"0123456789abcdef"` (hex crate `write_hex`). -/
def hexDigitLower (d : Nat) : Nat := if d < 10 then 48 + d else 87 + d

/-- `CHARS[d]` for `CHARS = b"0123456789ABCDEF"` (hex crate `write_hex_upper`). -/
def hexDigitUpper (d : Nat) : Nat := if d < 10 then 48 + d else 55 + d

/-- `ToHex::write_hex`: for each byte emit `CHARS[b >> 4]`, `CHARS[b & 0xf]`. -/
def writeHexLower : List Nat → List Nat
  | [] => []
  | b :: rest => hexDigitLower (b / 16) :: hexDigitLower (b % 16) :: writeHexLower rest

/-- `ToHex::write_hex_upper`. -/
def writeHexUpper : List Nat → List Nat
  | [] => []
  | b :: rest => hexDigitUpper (b / 16) :: hexDigitUpper (b % 16) :: writeHexUpper rest

/-- `impl Serialize for Oid`, human-readable branch (and `impl
fmt::LowerHex`): the lowercase hex string of the 20 bytes. -/
def Oid.serializeHuman (o : Oid) : List Nat := writeHexLower o.bytes

/-- `impl Serialize for Oid`, binary branch: `serialize_bytes(&self.0)`. -/
def Oid.serializeBinary (o : Oid) : List Nat := o.bytes

/-- The byte view of an ASCII Lean string literal (for the concrete
inputs of the claims; all of them are ASCII, where the code point equals
the UTF-8 byte). -/
def strBytes (s : String) : List Nat := s.toList.map Char.toNat

/-- The byte ranges accepted by the hex crate's `val`. -/
def IsHexByte (c : Nat) : Prop :=
  (65 ≤ c ∧ c ≤ 70) ∨ (97 ≤ c ∧ c ≤ 102) ∨ (48 ≤ c ∧ c ≤ 57)

instance (c : Nat) : Decidable (IsHexByte c) := by
  unfold IsHexByte
  infer_instance

/-- ASCII lowercasing of a byte, as `str::to_lowercase` acts on ASCII. -/
def asciiLower (c : Nat) : Nat := if 65 ≤ c ∧ c ≤ 90 then c + 32 else c

theorem hexVal_ok_iff (c i : Nat) : (∃ d, hexVal c i = .ok d) ↔ IsHexByte c := by
  unfold hexVal IsHexByte
  split_ifs with h1 h2 h3 <;> simp <;> omega

theorem hexVal_ok_facts (c i d : Nat) (h : hexVal c i = .ok d) :
    d < 16 ∧ hexDigitLower d = asciiLower c := by
  unfold hexVal at h
  split_ifs at h with h1 h2 h3 <;>
    simp only [Except.ok.injEq] at h <;>
    subst h <;>
    unfold hexDigitLower asciiLower <;>
    split_ifs <;> omega

theorem hexVal_err (c i : Nat) (h : ¬ IsHexByte c) :
    hexVal c i = .error (.invalidHexCharacter c i) := by
  unfold hexVal
  unfold IsHexByte at h
  split_ifs with h1 h2 h3
  · exact absurd (Or.inl h1) h
  · exact absurd (Or.inr (Or.inl h2)) h
  · exact absurd (Or.inr (Or.inr h3)) h
  · rfl

theorem hexPairs_ok_hex :
    ∀ (s : List Nat) (i : Nat), s.length % 2 = 0 → (∀ c ∈ s, IsHexByte c) →
      ∃ bs, hexPairs s i = .ok bs ∧ writeHexLower bs = s.map asciiLower ∧
        bs.length = s.length / 2 ∧ ∀ b ∈ bs, b < 256
  | [], i, _, _ => ⟨[], by simp [hexPairs], by simp [writeHexLower], by simp, by simp⟩
  | [c], i, h, _ => by simp at h
  | hi :: lo :: rest, i, h, hhex => by
    obtain ⟨d1, hd1⟩ := (hexVal_ok_iff hi (2 * i)).mpr (hhex hi (by simp))
    obtain ⟨d2, hd2⟩ := (hexVal_ok_iff lo (2 * i + 1)).mpr (hhex lo (by simp))
    obtain ⟨f1, f2⟩ := hexVal_ok_facts hi (2 * i) d1 hd1
    obtain ⟨f3, f4⟩ := hexVal_ok_facts lo (2 * i + 1) d2 hd2
    obtain ⟨bs, hbs, hw, hl, hb⟩ := hexPairs_ok_hex rest (i + 1)
      (by simp only [List.length_cons] at h ⊢; omega)
      (fun c hc => hhex c (by simp [hc]))
    refine ⟨(16 * d1 + d2) :: bs, ?_, ?_, ?_, ?_⟩
    · simp only [hexPairs, hd1, hd2, hbs]
    · have e1 : (16 * d1 + d2) / 16 = d1 := by omega
      have e2 : (16 * d1 + d2) % 16 = d2 := by omega
      simp only [writeHexLower, List.map_cons, e1, e2, f2, f4, hw]
    · simp only [List.length_cons] at h hl ⊢
      omega
    · intro b hb2
      rcases List.mem_cons.mp hb2 with h0 | h0
      · have hf : b = 16 * d1 + d2 := h0
        omega
      · exact hb b h0

theorem hexPairs_err_nonhex :
    ∀ (s : List Nat) (i : Nat), s.length % 2 = 0 →
      (∃ c ∈ s, ¬ IsHexByte c) →
      ∃ c j, c ∈ s ∧ ¬ IsHexByte c ∧
        hexPairs s i = .error (.invalidHexCharacter c j)
  | [], i, _, hc => by simp at hc
  | [c], i, h, _ => by simp at h
  | hi :: lo :: rest, i, h, hc => by
    by_cases hhi : IsHexByte hi
    · obtain ⟨d1, hd1⟩ := (hexVal_ok_iff hi (2 * i)).mpr hhi
      by_cases hlo : IsHexByte lo
      · obtain ⟨d2, hd2⟩ := (hexVal_ok_iff lo (2 * i + 1)).mpr hlo
        obtain ⟨c, hcmem, hcbad⟩ := hc
        have hcrest : c ∈ rest := by
          rcases List.mem_cons.mp hcmem with h0 | h0
          · exact absurd (h0 ▸ hhi) hcbad
          · rcases List.mem_cons.mp h0 with h1 | h1
            · exact absurd (h1 ▸ hlo) hcbad
            · exact h1
        obtain ⟨c2, j, hmem, hbad, herr⟩ := hexPairs_err_nonhex rest (i + 1)
          (by simp only [List.length_cons] at h ⊢; omega) ⟨c, hcrest, hcbad⟩
        exact ⟨c2, j, by simp [hmem], hbad,
          by simp only [hexPairs, hd1, hd2, herr]⟩
      · refine ⟨lo, 2 * i + 1, by simp, hlo, ?_⟩
        simp only [hexPairs, hd1, hexVal_err lo (2 * i + 1) hlo]
    · refine ⟨hi, 2 * i, by simp, hhi, ?_⟩
      simp only [hexPairs, hexVal_err hi (2 * i) hhi]

theorem hexPairs_ok_allHex :
    ∀ (s : List Nat) (i : Nat) (bs : List Nat), hexPairs s i = .ok bs →
      ∀ c ∈ s, IsHexByte c
  | [], _, _, _ => by simp
  | [c], i, bs, h => by
    simp only [hexPairs] at h
    exact Except.noConfusion h
  | hi :: lo :: rest, i, bs, h => by
    intro c hcmem
    rcases hv1 : hexVal hi (2 * i) with e1 | d1
    · simp only [hexPairs, hv1] at h
      exact Except.noConfusion h
    rcases hv2 : hexVal lo (2 * i + 1) with e2 | d2
    · simp only [hexPairs, hv1, hv2] at h
      exact Except.noConfusion h
    rcases hv3 : hexPairs rest (i + 1) with e3 | tail
    · simp only [hexPairs, hv1, hv2, hv3] at h
      exact Except.noConfusion h
    rcases List.mem_cons.mp hcmem with h0 | h0
    · exact h0 ▸ (hexVal_ok_iff hi (2 * i)).mp ⟨d1, hv1⟩
    rcases List.mem_cons.mp h0 with h1 | h1
    · exact h1 ▸ (hexVal_ok_iff lo (2 * i + 1)).mp ⟨d2, hv2⟩
    · exact hexPairs_ok_allHex rest (i + 1) tail hv3 c h1

theorem arrayFromHex20_ok_hex (s : List Nat) (hlen : s.length = 40)
    (hhex : ∀ c ∈ s, IsHexByte c) :
    ∃ bs, arrayFromHex20 s = .ok bs ∧ writeHexLower bs = s.map asciiLower ∧
      bs.length = 20 ∧ ∀ b ∈ bs, b < 256 := by
  obtain ⟨bs, h1, h2, h3, h4⟩ := hexPairs_ok_hex s 0 (by omega) hhex
  have hv : vecFromHex s = .ok bs := by
    unfold vecFromHex
    rw [if_neg (by omega)]
    exact h1
  refine ⟨bs, ?_, h2, by omega, h4⟩
  simp only [arrayFromHex20, hv]
  rw [if_neg (by omega)]

theorem hexDigitLower_fixed (d : Nat) (h : d < 16) :
    asciiLower (hexDigitLower d) = hexDigitLower d := by
  unfold asciiLower hexDigitLower
  split_ifs <;> omega

theorem writeHexLower_fixed (bs : List Nat) (h : ∀ b ∈ bs, b < 256) :
    (writeHexLower bs).map asciiLower = writeHexLower bs := by
  induction bs with
  | nil => simp [writeHexLower]
  | cons b rest ih =>
    have hb : b < 256 := h b (by simp)
    simp only [writeHexLower, List.map_cons]
    rw [hexDigitLower_fixed (b / 16) (by omega), hexDigitLower_fixed (b % 16) (by omega),
      ih (fun x hx => h x (by simp [hx]))]

/-- **C1.** For every string `s` of exactly 40 hexadecimal characters
(digits `0-9` and `a-f`/`A-F` only), decoding `s` to an `Oid` through the
string deserialization path succeeds, and re-encoding that `Oid` to hex
(the human-readable serialization path, `fmt::LowerHex`) yields a string
equal to `s` up to letter case:
`to_hex(from_hex(s)).to_lowercase() == s.to_lowercase()`. -/
theorem c1_hex_decode_encode (s : List Nat) (hlen : s.length = 40)
    (hhex : ∀ c ∈ s, IsHexByte c) :
    ∃ o : Oid, oidVisitStr s = .ok o ∧
      (Oid.serializeHuman o).map asciiLower = s.map asciiLower := by
  obtain ⟨bs, h1, h2, h3, h4⟩ := arrayFromHex20_ok_hex s hlen hhex
  refine ⟨⟨bs⟩, ?_, ?_⟩
  · simp only [oidVisitStr, h1]
  · show (writeHexLower bs).map asciiLower = s.map asciiLower
    rw [writeHexLower_fixed bs h4, h2]

/-- Witness for C1 at a concrete 40-character hex string. -/
theorem c1_hex_decode_encode_witness :
    ∃ o : Oid,
      oidVisitStr (strBytes "4B825dc642cb6eb9a060e54bf8d69288fbee4904") = .ok o ∧
      (Oid.serializeHuman o).map asciiLower
        = (strBytes "4B825dc642cb6eb9a060e54bf8d69288fbee4904").map asciiLower :=
  c1_hex_decode_encode _ (by decide) (by decide)

/-- **C2.** For every byte buffer `b` of length exactly 20, decoding `b`
to an `Oid` through the byte deserialization path succeeds, and encoding
that `Oid` back to binary returns exactly `b`. -/
theorem c2_bytes_roundtrip (b : List Nat) (h : b.length = 20) :
    ∃ o : Oid, oidVisitBytes b = .ok o ∧ Oid.serializeBinary o = b := by
  refine ⟨⟨b⟩, ?_, rfl⟩
  unfold oidVisitBytes
  rw [if_neg (by omega)]

/-- Witness for C2 at a concrete 20-byte buffer. -/
theorem c2_bytes_roundtrip_witness :
    ∃ o : Oid, oidVisitBytes (List.replicate 20 7) = .ok o ∧
      Oid.serializeBinary o = List.replicate 20 7 :=
  c2_bytes_roundtrip _ (by decide)

/-- **C6, counterexample.** The claim says every input whose length is
not 40 gets an invalid-length error; in fact hex 0.3 decodes characters
before comparing the length against 40, so the length-2 input `"zz"`
fails with an invalid-character error naming `z` (byte 122), not with an
invalid-length error. -/
theorem c6_counterexample_zz :
    (strBytes "zz").length = 2 ∧
    oidVisitStr (strBytes "zz")
      = .error (.invalidValueChar 122 "string with only hexadecimal characters") :=
  ⟨by decide, by decide⟩

/-- **C6 (amended).** Hex decoding fails exactly when the input is not 40
hex bytes, classified in hex 0.3's decode-before-length order: an odd
length yields an invalid-length error carrying the offending length; an
even-length input containing a non-hex byte (length-40 inputs included)
yields an invalid-character error carrying the offending byte; and an
even-length all-hex input of length other than 40 yields an
invalid-length error carrying the offending length. -/
theorem c6_error_classification (s : List Nat) :
    ((∃ o, oidVisitStr s = .ok o) ↔ (s.length = 40 ∧ ∀ c ∈ s, IsHexByte c)) ∧
    (s.length % 2 = 1 →
      oidVisitStr s
        = .error (.invalidLength s.length "hex string with an even length")) ∧
    (s.length % 2 = 0 → ¬ (∀ c ∈ s, IsHexByte c) →
      ∃ c, c ∈ s ∧ ¬ IsHexByte c ∧
        oidVisitStr s = .error
          (.invalidValueChar c "string with only hexadecimal characters")) ∧
    (s.length % 2 = 0 → s.length ≠ 40 → (∀ c ∈ s, IsHexByte c) →
      oidVisitStr s
        = .error (.invalidLength s.length "hex string with a valid length")) := by
  refine ⟨⟨?_, ?_⟩, ?_, ?_, ?_⟩
  · rintro ⟨o, ho⟩
    unfold oidVisitStr at ho
    rcases harr : arrayFromHex20 s with e | bs
    · rw [harr] at ho
      rcases e <;> exact Except.noConfusion ho
    · rcases hv : vecFromHex s with e2 | bs2
      · simp only [arrayFromHex20, hv] at harr
        exact Except.noConfusion harr
      · simp only [arrayFromHex20, hv] at harr
        split_ifs at harr with h20
        unfold vecFromHex at hv
        split_ifs at hv with hodd
        have hhex := hexPairs_ok_allHex s 0 bs2 hv
        refine ⟨?_, hhex⟩
        obtain ⟨bs3, hb3, _, hlen3, _⟩ := hexPairs_ok_hex s 0 (by omega) hhex
        rw [hv] at hb3
        injection hb3 with hb3e
        subst hb3e
        omega
  · rintro ⟨hlen, hhex⟩
    obtain ⟨bs, h1, _, _, _⟩ := arrayFromHex20_ok_hex s hlen hhex
    exact ⟨⟨bs⟩, by simp only [oidVisitStr, h1]⟩
  · intro hodd
    have hv : vecFromHex s = .error .oddLength := by
      unfold vecFromHex
      rw [if_pos (by omega)]
    have harr : arrayFromHex20 s = .error .oddLength := by
      simp only [arrayFromHex20, hv]
    simp only [oidVisitStr, harr]
  · intro heven hbad
    push_neg at hbad
    obtain ⟨c0, hc0, hc0bad⟩ := hbad
    obtain ⟨c, j, hmem, hbadc, herr⟩ :=
      hexPairs_err_nonhex s 0 (by omega) ⟨c0, hc0, hc0bad⟩
    have hv : vecFromHex s = .error (.invalidHexCharacter c j) := by
      unfold vecFromHex
      rw [if_neg (by omega)]
      exact herr
    have harr : arrayFromHex20 s = .error (.invalidHexCharacter c j) := by
      simp only [arrayFromHex20, hv]
    exact ⟨c, hmem, hbadc, by simp only [oidVisitStr, harr]⟩
  · intro heven hne hhex
    obtain ⟨bs, h1, _, h3, _⟩ := hexPairs_ok_hex s 0 (by omega) hhex
    have hv : vecFromHex s = .ok bs := by
      unfold vecFromHex
      rw [if_neg (by omega)]
      exact h1
    have harr : arrayFromHex20 s = .error .invalidStringLength := by
      simp only [arrayFromHex20, hv]
      rw [if_pos (by omega)]
    simp only [oidVisitStr, harr]

/-- Witness for C6 (amended): `"abc"` (odd length) fails with an
invalid-length error carrying 3; `"zz" ++ 38 zeros` fails with an
invalid-character error naming `z` (byte 122); and the all-hex
length-2 input `"00"` fails with an invalid-length error carrying 2. -/
theorem c6_error_classification_witness :
    (oidVisitStr (strBytes "abc")
      = .error (.invalidLength (strBytes "abc").length
          "hex string with an even length")) ∧
    (∃ c, c ∈ strBytes "zz00000000000000000000000000000000000000" ∧
      ¬ IsHexByte c ∧
      oidVisitStr (strBytes "zz00000000000000000000000000000000000000")
        = .error (.invalidValueChar c "string with only hexadecimal characters")) ∧
    (oidVisitStr (strBytes "00")
      = .error (.invalidLength (strBytes "00").length
          "hex string with a valid length")) :=
  ⟨(c6_error_classification (strBytes "abc")).2.1 (by decide),
   (c6_error_classification
      (strBytes "zz00000000000000000000000000000000000000")).2.2.1
      (by decide) (by decide),
   (c6_error_classification (strBytes "00")).2.2.2
      (by decide) (by decide) (by decide)⟩

/-- **C7.** Hex-decoding `"4b825dc642cb6eb9a060e54bf8d69288fbee4904"`
succeeds and equals `Oid::EMPTY_TREE`; hex-decoding 40 zeros succeeds and
equals `Oid::ZERO`, which is also the derived `Default` value of `Oid`.
Both decoding entry points (`Oid::from_hex` and the serde string path)
are checked. -/
theorem c7_distinguished_constants :
    oidVisitStr (strBytes "4b825dc642cb6eb9a060e54bf8d69288fbee4904")
      = .ok Oid.EMPTY_TREE ∧
    Oid.from_hex (strBytes "4b825dc642cb6eb9a060e54bf8d69288fbee4904")
      = .ok Oid.EMPTY_TREE ∧
    oidVisitStr (strBytes "0000000000000000000000000000000000000000")
      = .ok Oid.ZERO ∧
    Oid.from_hex (strBytes "0000000000000000000000000000000000000000")
      = .ok Oid.ZERO ∧
    Oid.ZERO = Oid.defaultOid := by
  refine ⟨?_, ?_, ?_, ?_, ?_⟩ <;> decide

/-- **C10.** The standalone `Oid::from_hex` and the serde string path
`OidVisitor::visit_str` agree on acceptance and on the decoded value:
they succeed on exactly the same inputs, with the same resulting `Oid`,
and fail on exactly the same inputs. -/
theorem c10_from_hex_agrees_visit_str (s : List Nat) (o : Oid) :
    (Oid.from_hex s = .ok o ↔ oidVisitStr s = .ok o) ∧
    (Oid.from_hex s = .error () ↔ ∃ e, oidVisitStr s = .error e) := by
  unfold Oid.from_hex oidVisitStr
  rcases harr : arrayFromHex20 s with e | bs
  · rcases e <;> simp
  · simp

/-! ## Timestamp codec: `src/datetime.rs`

`DateTime` wraps `chrono::DateTime<chrono::Utc>`.  A chrono UTC instant
is modelled by its signed second count since the Unix epoch together with
a nanosecond part.  The proleptic-Gregorian conversion between day
numbers and calendar dates that chrono's `NaiveDate` implements is
modelled by the standard era-based algorithm below; `dys`/`yoeOf` are its
year-of-era helpers.
-/

/-- Day-of-era adjusted by the leap-day pattern; dividing by 365 yields
the year-of-era (see `yoeOf`). -/
def adjDoe (doe : Nat) : Nat := doe - doe / 1460 + doe / 36524 - doe / 146096

/-- Year-of-era `[0, 399]` of a day-of-era `[0, 146096]`. -/
def yoeOf (doe : Nat) : Nat := adjDoe doe / 365

/-- First day-of-era of a year-of-era. -/
def dys (y : Nat) : Nat := 365 * y + y / 4 - y / 100

/-- First day-of-era of the year after `y` (the era has 146097 days). -/
def nextStart (y : Nat) : Nat := if y = 399 then 146097 else dys (y + 1)

/-- Leap-year predicate on the year-of-era successor scale `[1, 400]`. -/
def IsLeapCivil (w : Nat) : Prop := (w % 4 = 0 ∧ w % 100 ≠ 0) ∨ w % 400 = 0

instance (w : Nat) : Decidable (IsLeapCivil w) := by
  unfold IsLeapCivil
  infer_instance

/-- The finite facts that pin down `yoeOf` on one era: it is exact at both
ends of every year-of-era, and a 366-day year-of-era `y` corresponds to a
leap civil year `y + 1`. -/
def boundsOK (y : Nat) : Bool :=
  if 400 ≤ y then true
  else decide (yoeOf (dys y) = y) && decide (yoeOf (nextStart y - 1) = y) &&
    (decide (nextStart y - dys y ≠ 366) || decide (IsLeapCivil (y + 1)))

/-- Balanced conjunction of `boundsOK` over `[lo, lo + 2^f)`, shaped so the
kernel can evaluate the root call without deep recursion. -/
def chkB : Nat → Nat → Bool
  | 0, lo => boundsOK lo
  | f + 1, lo => chkB f lo && chkB f (lo + 2 ^ f)

theorem chkB_correct : ∀ f lo, chkB f lo = true → ∀ i, i < 2 ^ f → boundsOK (lo + i) = true := by
  intro f
  induction f with
  | zero =>
    intro lo h i hi
    have h0 : i = 0 := by omega
    subst h0
    simpa using h
  | succ f ih =>
    intro lo h i hi
    rw [chkB, Bool.and_eq_true] at h
    by_cases hc : i < 2 ^ f
    · exact ih lo h.1 i hc
    · have h2 : i - 2 ^ f < 2 ^ f := by
        have he : 2 ^ (f + 1) = 2 ^ f + 2 ^ f := by ring
        omega
      have h3 := ih (lo + 2 ^ f) h.2 (i - 2 ^ f) h2
      have he : lo + 2 ^ f + (i - 2 ^ f) = lo + i := by omega
      rwa [he] at h3

set_option maxHeartbeats 4000000 in
theorem chkB_root : chkB 9 0 = true := by decide

theorem boundsOK_all (y : Nat) (h : y < 400) :
    yoeOf (dys y) = y ∧ yoeOf (nextStart y - 1) = y ∧
      (nextStart y - dys y = 366 → IsLeapCivil (y + 1)) := by
  have h2 : y < 2 ^ 9 := by omega
  have h3 := chkB_correct 9 0 chkB_root y h2
  rw [Nat.zero_add, boundsOK, if_neg (by omega)] at h3
  simp only [Bool.and_eq_true, Bool.or_eq_true, decide_eq_true_iff,
    decide_eq_true_eq] at h3
  obtain ⟨⟨h4, h5⟩, h6⟩ := h3
  refine ⟨h4, h5, fun hyl => ?_⟩
  rcases h6 with h7 | h7
  · exact absurd hyl h7
  · exact h7

theorem adjDoe_step (doe : Nat) : adjDoe doe ≤ adjDoe (doe + 1) := by
  unfold adjDoe
  omega

theorem yoeOf_mono {a b : Nat} (h : a ≤ b) : yoeOf a ≤ yoeOf b := by
  have key : ∀ k, yoeOf a ≤ yoeOf (a + k) := by
    intro k
    induction k with
    | zero => rfl
    | succ k ih =>
      refine ih.trans ?_
      unfold yoeOf
      exact Nat.div_le_div_right (adjDoe_step (a + k))
  have h2 := key (b - a)
  have he : a + (b - a) = b := by omega
  rwa [he] at h2

theorem dys_step (y : Nat) : dys y < dys (y + 1) ∧ dys (y + 1) ≤ dys y + 366 := by
  unfold dys
  omega

theorem nextStart_le (y : Nat) (h : y ≤ 399) : nextStart y ≤ dys y + 366 := by
  by_cases h399 : y = 399
  · subst h399
    decide
  · rw [nextStart, if_neg h399]
    exact (dys_step y).2

/-- Correctness of the year-of-era extraction: every day-of-era lies
inside the year `yoeOf` computes for it. -/
theorem yoe_correct (doe : Nat) (h : doe < 146097) :
    dys (yoeOf doe) ≤ doe ∧ doe < nextStart (yoeOf doe) ∧ yoeOf doe ≤ 399 := by
  have h399 : yoeOf doe ≤ 399 := by
    have h1 : yoeOf doe ≤ yoeOf 146096 := yoeOf_mono (by omega)
    have h2 : yoeOf 146096 = 399 := by decide
    omega
  refine ⟨?_, ?_, h399⟩
  · by_contra hlt
    push_neg at hlt
    have hy1 : 1 ≤ yoeOf doe := by
      rcases Nat.eq_zero_or_pos (yoeOf doe) with h0 | h0
      · rw [h0] at hlt
        simp [dys] at hlt
      · exact h0
    have hb := boundsOK_all (yoeOf doe - 1) (by omega)
    have hns : nextStart (yoeOf doe - 1) = dys (yoeOf doe) := by
      rw [nextStart, if_neg (by omega)]
      congr 1
      omega
    rw [hns] at hb
    have hmono := yoeOf_mono (show doe ≤ dys (yoeOf doe) - 1 by omega)
    omega
  · by_contra hgt
    push_neg at hgt
    rcases Nat.lt_or_ge (yoeOf doe) 399 with h398 | h399a
    · have hb := boundsOK_all (yoeOf doe + 1) (by omega)
      have hns : nextStart (yoeOf doe) = dys (yoeOf doe + 1) := by
        rw [nextStart, if_neg (by omega)]
      rw [hns] at hgt
      have hmono := yoeOf_mono (show dys (yoeOf doe + 1) ≤ doe from hgt)
      omega
    · have heq : yoeOf doe = 399 := by omega
      rw [heq] at hgt
      rw [nextStart, if_pos rfl] at hgt
      omega

set_option maxHeartbeats 1000000 in
/-- Correctness of the month/day split of a day-of-year `[0, 365]`
(March-based month index `mp`), including the bounds needed for calendar
day validation. -/
theorem month_stage (doy : Nat) (h : doy ≤ 365) :
    (let mp := (5 * doy + 2) / 153
     let d := doy - (153 * mp + 2) / 5 + 1
     let m := if mp < 10 then mp + 3 else mp - 9
     (if 2 < m then m - 3 else m + 9) = mp ∧
     (153 * mp + 2) / 5 ≤ doy ∧
     (153 * mp + 2) / 5 + d - 1 = doy ∧
     1 ≤ m ∧ m ≤ 12 ∧ 1 ≤ d ∧ d ≤ 31 ∧
     (m = 2 → d ≤ 29 ∧ (d = 29 → doy = 365)) ∧
     ((m = 4 ∨ m = 6 ∨ m = 9 ∨ m = 11) → d ≤ 30)) := by
  dsimp only
  split_ifs <;> omega

/-- Day count since 1970-01-01 → proleptic-Gregorian (year, month, day);
the conversion chrono's `NaiveDate` implements (era-based algorithm). -/
def civilFromDays (z : Int) : Int × Nat × Nat :=
  let era := (z + 719468) / 146097
  let doe := ((z + 719468) % 146097).toNat
  let yoe := yoeOf doe
  let doy := doe - dys yoe
  let mp := (5 * doy + 2) / 153
  let d := doy - (153 * mp + 2) / 5 + 1
  let m := if mp < 10 then mp + 3 else mp - 9
  (era * 400 + (yoe : Int) + (if m ≤ 2 then 1 else 0), m, d)

/-- Proleptic-Gregorian (year, month, day) → day count since 1970-01-01;
the inverse conversion. -/
def daysFromCivil (y : Int) (m d : Nat) : Int :=
  let y2 := y - (if m ≤ 2 then 1 else 0)
  let era := y2 / 400
  let yoe := (y2 % 400).toNat
  let mp := if 2 < m then m - 3 else m + 9
  let doy := (153 * mp + 2) / 5 + d - 1
  era * 146097 + ((dys yoe + doy : Nat) : Int) - 719468

theorem eraSplit (E : Int) (y : Nat) (hy : y ≤ 399) :
    (E * 400 + (y : Int)) % 400 = (y : Int) ∧ (E * 400 + (y : Int)) / 400 = E := by
  constructor
  · rw [add_comm, Int.add_mul_emod_self]
    exact Int.emod_eq_of_lt (by positivity) (by omega)
  · rw [add_comm, Int.add_mul_ediv_right _ _ (by norm_num : (400 : Int) ≠ 0)]
    rw [Int.ediv_eq_zero_of_lt (by positivity) (by omega)]
    ring

set_option maxHeartbeats 2000000 in
/-- The civil-calendar conversions are mutually inverse on day numbers. -/
theorem civil_roundtrip (z : Int) :
    daysFromCivil (civilFromDays z).1 (civilFromDays z).2.1 (civilFromDays z).2.2 = z := by
  unfold civilFromDays daysFromCivil
  dsimp only
  have hnn : 0 ≤ (z + 719468) % 146097 := Int.emod_nonneg _ (by norm_num)
  have hlt : (z + 719468) % 146097 < 146097 := Int.emod_lt_of_pos _ (by norm_num)
  have hdoeN : ((z + 719468) % 146097).toNat < 146097 := by omega
  obtain ⟨hK1, hK2, hK3⟩ := yoe_correct _ hdoeN
  have hdoy : ((z + 719468) % 146097).toNat
      - dys (yoeOf ((z + 719468) % 146097).toNat) ≤ 365 := by
    have hle := nextStart_le (yoeOf ((z + 719468) % 146097).toNat) hK3
    omega
  have hM := month_stage (((z + 719468) % 146097).toNat
      - dys (yoeOf ((z + 719468) % 146097).toNat)) hdoy
  dsimp only at hM
  obtain ⟨hm1, hm2, hm3, hm4, hm5, hm6, hm7, hm8, hm9⟩ := hM
  rw [hm1]
  rw [add_sub_cancel_right]
  obtain ⟨h1, h2⟩ := eraSplit ((z + 719468) / 146097)
    (yoeOf ((z + 719468) % 146097).toNat) hK3
  rw [h1, h2, Int.toNat_natCast]
  omega

/-- Leap-year predicate of the proleptic Gregorian calendar, as chrono
implements it for `NaiveDate`. -/
def IsLeapYear (y : Int) : Prop := (y % 4 = 0 ∧ y % 100 ≠ 0) ∨ y % 400 = 0

instance (y : Int) : Decidable (IsLeapYear y) := by
  unfold IsLeapYear
  infer_instance

theorem isLeap_shift (E : Int) (w : Nat) :
    IsLeapYear (E * 400 + (w : Int)) ↔ IsLeapCivil w := by
  unfold IsLeapYear IsLeapCivil
  have h4 : (E * 400 + (w : Int)) % 4 = (w : Int) % 4 := by
    rw [show E * 400 + (w : Int) = (w : Int) + E * 100 * 4 by ring, Int.add_mul_emod_self]
  have h100 : (E * 400 + (w : Int)) % 100 = (w : Int) % 100 := by
    rw [show E * 400 + (w : Int) = (w : Int) + E * 4 * 100 by ring, Int.add_mul_emod_self]
  have h400 : (E * 400 + (w : Int)) % 400 = (w : Int) % 400 := by
    rw [show E * 400 + (w : Int) = (w : Int) + E * 400 by ring, Int.add_mul_emod_self]
  rw [h4, h100, h400]
  omega

/-- Days in a month of the proleptic Gregorian calendar (chrono
`NaiveDate::from_ymd_opt` validity; the value at months outside
`[1, 12]` is never used because the month range is checked first). -/
def daysInMonth (y : Int) (m : Nat) : Nat :=
  if m = 2 then (if IsLeapYear y then 29 else 28)
  else if m = 4 ∨ m = 6 ∨ m = 9 ∨ m = 11 then 30
  else 31

set_option maxHeartbeats 2000000 in
/-- The date produced by `civilFromDays` is always a valid calendar
date. -/
theorem civil_valid (z : Int) :
    1 ≤ (civilFromDays z).2.1 ∧ (civilFromDays z).2.1 ≤ 12 ∧
    1 ≤ (civilFromDays z).2.2 ∧
    (civilFromDays z).2.2 ≤ daysInMonth (civilFromDays z).1 (civilFromDays z).2.1 := by
  unfold civilFromDays
  dsimp only
  have hnn : 0 ≤ (z + 719468) % 146097 := Int.emod_nonneg _ (by norm_num)
  have hlt : (z + 719468) % 146097 < 146097 := Int.emod_lt_of_pos _ (by norm_num)
  set doe := ((z + 719468) % 146097).toNat with hdoe
  have hdoeN : doe < 146097 := by omega
  obtain ⟨hK1, hK2, hK3⟩ := yoe_correct _ hdoeN
  set yoe := yoeOf doe with hyoe
  set doy := doe - dys yoe with hdoy
  have hdoy365 : doy ≤ 365 := by
    have hle := nextStart_le yoe hK3
    omega
  have hM := month_stage doy hdoy365
  dsimp only at hM
  set mp := (5 * doy + 2) / 153 with hmp
  set dd := doy - (153 * mp + 2) / 5 + 1 with hdd
  set m := if mp < 10 then mp + 3 else mp - 9 with hm
  obtain ⟨hm1, hm2, hm3, hm4, hm5, hm6, hm7, hm8, hm9⟩ := hM
  refine ⟨hm4, hm5, hm6, ?_⟩
  unfold daysInMonth
  by_cases h2m : m = 2
  · rw [if_pos h2m]
    have hif : (if m ≤ 2 then (1 : Int) else 0) = 1 := if_pos (by omega)
    rw [hif]
    by_cases hleap : IsLeapYear ((z + 719468) / 146097 * 400 + (yoe : Int) + 1)
    · rw [if_pos hleap]
      exact (hm8 h2m).1
    · rw [if_neg hleap]
      by_contra hd29
      push_neg at hd29
      have hd29a : dd = 29 := by
        have := (hm8 h2m).1
        omega
      have hdoyEq : doy = 365 := (hm8 h2m).2 hd29a
      have hyl : nextStart yoe - dys yoe = 366 := by
        have hle := nextStart_le yoe hK3
        omega
      have hlc : IsLeapCivil (yoe + 1) := (boundsOK_all yoe (by omega)).2.2 hyl
      have hcast : (z + 719468) / 146097 * 400 + (yoe : Int) + 1
          = (z + 719468) / 146097 * 400 + ((yoe + 1 : Nat) : Int) := by
        push_cast
        ring
      rw [hcast] at hleap
      exact hleap ((isLeap_shift _ _).mpr hlc)
  · rw [if_neg h2m]
    by_cases h30 : m = 4 ∨ m = 6 ∨ m = 9 ∨ m = 11
    · rw [if_pos h30]
      exact hm9 h30
    · rw [if_neg h30]
      exact hm7

/-- chrono `DateTime<Utc>`: the signed count of seconds since the Unix
epoch together with the nanosecond part (`< 10^9`). -/
structure DateTime where
  secs : Int
  nsecs : Nat
deriving DecidableEq

/-- `chrono::offset::LocalResult` (constructor `notFound` models
`LocalResult::None`). -/
inductive LocalResult (α : Type) where
  | notFound : LocalResult α
  | single (t : α) : LocalResult α
  | ambiguous (t1 t2 : α) : LocalResult α
deriving DecidableEq

/-- First day of chrono's `NaiveDate` range (`-262144-01-01`), in days
since the Unix epoch. -/
def MIN_DAYS : Int := -96465658

/-- Last day of chrono's `NaiveDate` range (`262143-12-31`), in days
since the Unix epoch. -/
def MAX_DAYS : Int := 95026601

theorem min_days_is_min_date : daysFromCivil (-262144) 1 1 = MIN_DAYS := by decide

theorem max_days_is_max_date : daysFromCivil 262143 12 31 = MAX_DAYS := by decide

/-- chrono `Utc.timestamp_opt(v, 0)`:
`NaiveDateTime::from_timestamp_opt(secs, 0)` succeeds iff the floor-div
day number fits the `NaiveDate` range, and `Utc.from_utc_datetime` then
always yields `LocalResult::Single` (UTC has no local-time gaps or
folds). -/
def utcTimestampOpt (v : Int) : LocalResult DateTime :=
  if MIN_DAYS ≤ v / 86400 ∧ v / 86400 ≤ MAX_DAYS then .single ⟨v, 0⟩
  else .notFound

/-! ### Decimal digits, printing and scanning -/

def digitChar : Nat → Char
  | 0 => '0'
  | 1 => '1'
  | 2 => '2'
  | 3 => '3'
  | 4 => '4'
  | 5 => '5'
  | 6 => '6'
  | 7 => '7'
  | 8 => '8'
  | _ => '9'

/-- Decimal digit string of a natural number (most significant first). -/
def natDigits (n : Nat) : List Char :=
  if n < 10 then [digitChar n]
  else natDigits (n / 10) ++ [digitChar (n % 10)]
termination_by n
decreasing_by
  exact Nat.div_lt_self (by omega) (by omega)

/-- Zero-pad on the left to width `k`. -/
def padLeft (k : Nat) (l : List Char) : List Char :=
  List.replicate (k - l.length) '0' ++ l

/-- Two-digit zero-padded field (all uses have values below 100). -/
def pad2 (n : Nat) : List Char := [digitChar (n / 10), digitChar (n % 10)]

def isDigit (c : Char) : Bool := decide (48 ≤ c.toNat ∧ c.toNat ≤ 57)

def digitVal (c : Char) : Nat := c.toNat - 48

/-- Greedy scan of a decimal digit run. -/
def takeDigits : List Char → List Nat × List Char
  | [] => ([], [])
  | c :: rest =>
    if isDigit c then
      let p := takeDigits rest
      (digitVal c :: p.1, p.2)
    else ([], c :: rest)

/-- Value of a digit list (most significant first). -/
def digitsVal (ds : List Nat) : Nat := ds.foldl (fun a d => 10 * a + d) 0

theorem digitChar_spec (d : Nat) (h : d < 10) :
    isDigit (digitChar d) = true ∧ digitVal (digitChar d) = d := by
  interval_cases d <;> exact ⟨by decide, by decide⟩

theorem digitsVal_foldl (ds : List Nat) :
    ∀ acc : Nat, List.foldl (fun a d => 10 * a + d) acc ds
      = acc * 10 ^ ds.length + digitsVal ds := by
  induction ds with
  | nil => intro acc; simp [digitsVal]
  | cons x xs ih =>
    intro acc
    have h1 : digitsVal (x :: xs) = x * 10 ^ xs.length + digitsVal xs := by
      unfold digitsVal
      simp only [List.foldl_cons]
      simpa using ih x
    rw [List.foldl_cons, ih (10 * acc + x), h1, List.length_cons]
    ring

theorem digitsVal_append (a b : List Nat) :
    digitsVal (a ++ b) = digitsVal a * 10 ^ b.length + digitsVal b := by
  unfold digitsVal
  rw [List.foldl_append]
  exact digitsVal_foldl b _

theorem natDigits_spec (n : Nat) :
    (∀ c ∈ natDigits n, isDigit c = true) ∧ natDigits n ≠ [] ∧
      digitsVal ((natDigits n).map digitVal) = n := by
  induction n using Nat.strong_induction_on with
  | _ n ih =>
    rw [natDigits]
    split_ifs with h
    · refine ⟨?_, by simp, ?_⟩
      · intro c hc
        simp at hc
        subst hc
        exact (digitChar_spec n h).1
      · simp [digitsVal, (digitChar_spec n h).2]
    · obtain ⟨ihd, ihne, ihv⟩ := ih (n / 10) (Nat.div_lt_self (by omega) (by omega))
      refine ⟨?_, by simp, ?_⟩
      · intro c hc
        rcases List.mem_append.mp hc with h1 | h1
        · exact ihd c h1
        · simp at h1
          subst h1
          exact (digitChar_spec (n % 10) (by omega)).1
      · rw [List.map_append, digitsVal_append, ihv]
        simp [digitsVal, (digitChar_spec (n % 10) (by omega)).2]
        omega

theorem natDigits_len : ∀ (k n : Nat), 1 ≤ k → n < 10 ^ k → (natDigits n).length ≤ k := by
  intro k
  induction k with
  | zero => omega
  | succ k ih =>
    intro n h1 h2
    rw [natDigits]
    split_ifs with h
    · simp
    · have hk : 1 ≤ k := by
        by_contra hk0
        have : k = 0 := by omega
        subst this
        simp at h2
        omega
      have := ih (n / 10) hk (by
        have h10 : 10 ^ (k + 1) = 10 ^ k * 10 := by ring
        omega)
      simp only [List.length_append, List.length_cons, List.length_nil]
      omega

theorem padLeft_spec (k : Nat) (l : List Char) (h : ∀ c ∈ l, isDigit c = true) :
    (∀ c ∈ padLeft k l, isDigit c = true) ∧
      digitsVal ((padLeft k l).map digitVal) = digitsVal (l.map digitVal) ∧
      (l ≠ [] → padLeft k l ≠ []) ∧
      (l.length ≤ k → (padLeft k l).length = k) := by
  refine ⟨?_, ?_, ?_, ?_⟩
  · intro c hc
    rcases List.mem_append.mp hc with h1 | h1
    · have : c = '0' := List.eq_of_mem_replicate h1
      subst this
      decide
    · exact h c h1
  · unfold padLeft
    induction k - l.length with
    | zero => simp
    | succ j ihj =>
      rw [List.replicate_succ]
      simp only [List.cons_append, List.map_cons]
      unfold digitsVal at ihj ⊢
      simp only [List.foldl_cons]
      have hz : digitVal '0' = 0 := by decide
      rw [hz]
      simpa using ihj
  · intro hne
    unfold padLeft
    simp [hne]
  · intro hle
    unfold padLeft
    simp
    omega

/-! ### RFC-3339 printing and parsing

`src/datetime.rs` contains no `Serialize` impl for `DateTime`; the
encoder is therefore modelled from the spec.  The string decoder is
chrono's `FromStr for DateTime<Utc>` (an RFC-3339 parser), which is
external library code and is modelled from the spec as well.
-/

/-- chrono `ParseError` kinds reachable through this parser, with their
`Display` strings in `renderParseErr`. -/
inductive ParseErr where
  | invalid
  | outOfRange
  | tooShort
  | tooLong
deriving DecidableEq

/-- `Display` of chrono `ParseError`. -/
def renderParseErr : ParseErr → String
  | .invalid => "input contains invalid characters"
  | .outOfRange => "input is out of range"
  | .tooShort => "premature end of input"
  | .tooLong => "trailing input"

/-- Year field: optional sign, then a nonempty digit run. -/
def parseYearChars (s : List Char) : Except ParseErr (Int × List Char) :=
  match s with
  | [] => .error .tooShort
  | c :: rest =>
    if c = '-' then
      let q := takeDigits rest
      if q.1.isEmpty then .error .invalid else .ok (-(digitsVal q.1 : Int), q.2)
    else if c = '+' then
      let q := takeDigits rest
      if q.1.isEmpty then .error .invalid else .ok ((digitsVal q.1 : Int), q.2)
    else
      let q := takeDigits (c :: rest)
      if q.1.isEmpty then .error .invalid else .ok ((digitsVal q.1 : Int), q.2)

/-- A fixed-width two-digit field. -/
def parse2 : List Char → Except ParseErr (Nat × List Char)
  | a :: b :: rest =>
    if isDigit a && isDigit b then .ok (10 * digitVal a + digitVal b, rest)
    else .error .invalid
  | _ => .error .tooShort

def expectChar (c : Char) : List Char → Except ParseErr (List Char)
  | [] => .error .tooShort
  | x :: rest => if x = c then .ok rest else .error .invalid

/-- The date/time separator: `T`, `t` or a space. -/
def expectSep : List Char → Except ParseErr (List Char)
  | [] => .error .tooShort
  | x :: rest =>
    if x = 'T' ∨ x = 't' ∨ x = ' ' then .ok rest else .error .invalid

/-- Optional fractional-second field; at most nine digits are
significant, further digits are truncated. -/
def parseFrac (s : List Char) : Except ParseErr (Nat × List Char) :=
  match s with
  | [] => .ok (0, [])
  | c :: rest =>
    if c = '.' then
      let q := takeDigits rest
      if q.1.isEmpty then .error .invalid
      else .ok (digitsVal (q.1.take 9) * 10 ^ (9 - (q.1.take 9).length), q.2)
    else .ok (0, c :: rest)

/-- UTC offset: `Z`/`z` or `±hh:mm` (bounded like chrono's
`FixedOffset`). -/
def parseOffset (s : List Char) : Except ParseErr (Int × List Char) :=
  match s with
  | [] => .error .tooShort
  | c :: rest =>
    if c = 'Z' ∨ c = 'z' then .ok (0, rest)
    else if c = '+' ∨ c = '-' then
      match parse2 rest with
      | .error e => .error e
      | .ok (hh, r1) =>
        match expectChar ':' r1 with
        | .error e => .error e
        | .ok r2 =>
          match parse2 r2 with
          | .error e => .error e
          | .ok (mm, r3) =>
            if hh ≤ 23 ∧ mm ≤ 59 then
              .ok ((if c = '-' then -(3600 * (hh : Int) + 60 * mm)
                    else (3600 * (hh : Int) + 60 * mm)), r3)
            else .error .outOfRange
    else .error .invalid

/-- Modelled from the spec: `timestamp_from_string` parses an RFC-3339
(ISO-8601-compatible) date-time string — year, month, day, time of day,
optional fractional seconds, and a UTC offset — validates the calendar
date and the time of day, and normalizes to UTC.  This models chrono's
`FromStr for DateTime<Utc>`, whose source is not part of this
repository.  Leap-second inputs (second field 60) are outside the
model: the encoder under verification never produces them. -/
def parseRfc3339 (s : List Char) : Except ParseErr DateTime :=
  match parseYearChars s with
  | .error e => .error e
  | .ok (y, s1) =>
  match expectChar '-' s1 with
  | .error e => .error e
  | .ok s2 =>
  match parse2 s2 with
  | .error e => .error e
  | .ok (m, s3) =>
  match expectChar '-' s3 with
  | .error e => .error e
  | .ok s4 =>
  match parse2 s4 with
  | .error e => .error e
  | .ok (d, s5) =>
  match expectSep s5 with
  | .error e => .error e
  | .ok s6 =>
  match parse2 s6 with
  | .error e => .error e
  | .ok (hh, s7) =>
  match expectChar ':' s7 with
  | .error e => .error e
  | .ok s8 =>
  match parse2 s8 with
  | .error e => .error e
  | .ok (mi, s9) =>
  match expectChar ':' s9 with
  | .error e => .error e
  | .ok s10 =>
  match parse2 s10 with
  | .error e => .error e
  | .ok (ss, s11) =>
  match parseFrac s11 with
  | .error e => .error e
  | .ok (ns, s12) =>
  match parseOffset s12 with
  | .error e => .error e
  | .ok (off, s13) =>
  if ¬ s13.isEmpty then .error .tooLong
  else if ¬ (1 ≤ m ∧ m ≤ 12) then .error .outOfRange
  else if ¬ (1 ≤ d ∧ d ≤ daysInMonth y m) then .error .outOfRange
  else if ¬ (hh ≤ 23 ∧ mi ≤ 59 ∧ ss ≤ 59) then .error .outOfRange
  else if ¬ (MIN_DAYS ≤ daysFromCivil y m d ∧ daysFromCivil y m d ≤ MAX_DAYS)
  then .error .outOfRange
  else
    let secs := daysFromCivil y m d * 86400 + (3600 * hh + 60 * mi + ss : Nat) - off
    if ¬ (MIN_DAYS ≤ secs / 86400 ∧ secs / 86400 ≤ MAX_DAYS) then .error .outOfRange
    else .ok ⟨secs, ns⟩

/-- `timestamp_from_string` of the spec, on Lean strings. -/
def timestamp_from_string (s : String) : Except ParseErr DateTime :=
  parseRfc3339 s.toList

/-- The year field: sign for negative years, zero-padded to at least four
digits. -/
def yearChars (y : Int) : List Char :=
  (if y < 0 then ['-'] else []) ++ padLeft 4 (natDigits y.natAbs)

/-- Fractional-second field: empty when the nanosecond part is zero,
otherwise a dot and nine zero-padded digits. -/
def fracChars (n : Nat) : List Char :=
  if n = 0 then [] else '.' :: padLeft 9 (natDigits n)

/-- Modelled from the spec: `timestamp_to_rfc3339` always produces the
RFC-3339 string form of the instant (e.g. `2019-01-01T00:00:00Z`),
regardless of which form was used on input.  `src/datetime.rs` has no
`Serialize` impl, so this encoder exists only in the spec. -/
def toRfc3339Chars (dt : DateTime) : List Char :=
  let days := dt.secs / 86400
  let sod := (dt.secs % 86400).toNat
  let ymd := civilFromDays days
  yearChars ymd.1 ++ '-' :: (pad2 ymd.2.1 ++ '-' :: (pad2 ymd.2.2
    ++ 'T' :: (pad2 (sod / 3600) ++ ':' :: (pad2 (sod % 3600 / 60)
    ++ ':' :: (pad2 (sod % 60) ++ (fracChars dt.nsecs ++ ['Z']))))))

/-- `timestamp_to_rfc3339` of the spec, on Lean strings. -/
def timestamp_to_rfc3339 (dt : DateTime) : String :=
  String.mk (toRfc3339Chars dt)

/-- Rust `Display` for `chrono::DateTime<Utc>`
(`%Y-%m-%d %H:%M:%S UTC`), used only inside the ambiguous-timestamp
error message. -/
def displayDateTime (dt : DateTime) : String :=
  let days := dt.secs / 86400
  let sod := (dt.secs % 86400).toNat
  let ymd := civilFromDays days
  String.mk (yearChars ymd.1 ++ '-' :: (pad2 ymd.2.1 ++ '-' :: (pad2 ymd.2.2
    ++ ' ' :: (pad2 (sod / 3600) ++ ':' :: (pad2 (sod % 3600 / 60)
    ++ ':' :: pad2 (sod % 60)))))) ++ " UTC"

/-- `DateTimeVisitor::visit_str`: `v.parse()` with the parse error turned
into `E::custom(format!("{}", e))`. -/
def dtVisitStr (v : List Char) : Except SerdeErr DateTime :=
  match parseRfc3339 v with
  | .ok dt => .ok dt
  | .error e => .error (.custom (renderParseErr e))

/-- `DateTimeVisitor::visit_i64`: `Utc.timestamp_opt(v, 0)` matched on
all three `LocalResult` arms, with the error messages the source
formats. -/
def dtVisitI64 (v : Int) : Except SerdeErr DateTime :=
  match utcTimestampOpt v with
  | .notFound => .error (.custom ("value is not a legal timestamp: " ++ toString v))
  | .ambiguous mn mx =>
      .error (.custom ("value is an ambiguous timestamp: " ++ toString v
        ++ ", could be either of " ++ displayDateTime mn ++ ", "
        ++ displayDateTime mx))
  | .single dt => .ok dt

/-- `DateTimeVisitor::visit_u64`: `self.visit_i64(v as i64)` — a plain
two's-complement cast, with no range check. -/
def dtVisitU64 (v : Nat) : Except SerdeErr DateTime :=
  dtVisitI64 (if v < 2 ^ 63 then (v : Int) else (v : Int) - 2 ^ 64)

theorem takeDigits_append (ds : List Char) (rest : List Char)
    (hds : ∀ c ∈ ds, isDigit c = true)
    (hrest : ∀ c, rest.head? = some c → isDigit c = false) :
    takeDigits (ds ++ rest) = (ds.map digitVal, rest) := by
  induction ds with
  | nil =>
    simp only [List.nil_append, List.map_nil]
    cases rest with
    | nil => rfl
    | cons c r =>
      have hc := hrest c rfl
      simp [takeDigits, hc]
  | cons c cs ih =>
    have hc : isDigit c = true := hds c (by simp)
    simp only [List.cons_append, List.map_cons]
    simp [takeDigits, hc, ih (fun x hx => hds x (by simp [hx]))]

theorem expectChar_cons (c : Char) (r : List Char) : expectChar c (c :: r) = .ok r := by
  dsimp only [expectChar]
  rw [if_pos rfl]

theorem expectSep_T (r : List Char) : expectSep ('T' :: r) = .ok r := by
  dsimp only [expectSep]
  rw [if_pos (Or.inl rfl)]

theorem parseOffset_Z (r : List Char) : parseOffset ('Z' :: r) = .ok (0, r) := by
  dsimp only [parseOffset]
  rw [if_pos (Or.inl rfl)]

theorem parse2_pad2 (n : Nat) (h : n < 100) (r : List Char) :
    parse2 (pad2 n ++ r) = .ok (n, r) := by
  obtain ⟨ha1, ha2⟩ := digitChar_spec (n / 10) (by omega)
  obtain ⟨hb1, hb2⟩ := digitChar_spec (n % 10) (by omega)
  unfold pad2
  simp only [List.cons_append, List.nil_append]
  dsimp only [parse2]
  rw [ha1, hb1]
  simp only [Bool.and_self, if_true, ha2, hb2]
  have hval : 10 * (n / 10) + n % 10 = n := by omega
  rw [hval]

theorem isDigit_ne_dash (c : Char) (h : isDigit c = true) : ¬ (c = '-') := by
  intro heq
  subst heq
  revert h
  decide

theorem isDigit_ne_plus (c : Char) (h : isDigit c = true) : ¬ (c = '+') := by
  intro heq
  subst heq
  revert h
  decide

theorem parseYear_spec (y : Int) (r : List Char)
    (hr : ∀ c, r.head? = some c → isDigit c = false) :
    parseYearChars (yearChars y ++ r) = .ok (y, r) := by
  obtain ⟨hnd, hne, hnv⟩ := natDigits_spec y.natAbs
  obtain ⟨hp1, hp2, hp3, _⟩ := padLeft_spec 4 (natDigits y.natAbs) hnd
  have htd := takeDigits_append (padLeft 4 (natDigits y.natAbs)) r hp1 hr
  have hpne : padLeft 4 (natDigits y.natAbs) ≠ [] := hp3 hne
  have hmapne : (padLeft 4 (natDigits y.natAbs)).map digitVal ≠ [] := by
    simp [hpne]
  have hval : digitsVal ((padLeft 4 (natDigits y.natAbs)).map digitVal) = y.natAbs := by
    rw [hp2, hnv]
  by_cases hy : y < 0
  · have hyc : yearChars y = '-' :: padLeft 4 (natDigits y.natAbs) := by
      unfold yearChars
      rw [if_pos hy]
      rfl
    rw [hyc]
    simp only [List.cons_append]
    dsimp only [parseYearChars]
    rw [if_pos rfl, htd]
    rw [if_neg (by simpa using hmapne)]
    rw [hval]
    have : -((y.natAbs : Nat) : Int) = y := by omega
    rw [this]
  · have hyc : yearChars y = padLeft 4 (natDigits y.natAbs) := by
      unfold yearChars
      rw [if_neg hy]
      rfl
    rw [hyc]
    obtain ⟨c, cs, hcons⟩ : ∃ c cs, padLeft 4 (natDigits y.natAbs) = c :: cs := by
      cases hp : padLeft 4 (natDigits y.natAbs) with
      | nil => exact absurd hp hpne
      | cons c cs => exact ⟨c, cs, rfl⟩
    have hcdig : isDigit c = true := hp1 c (by rw [hcons]; simp)
    rw [hcons]
    simp only [List.cons_append]
    dsimp only [parseYearChars]
    rw [if_neg (isDigit_ne_dash c hcdig), if_neg (isDigit_ne_plus c hcdig)]
    have htd2 : takeDigits (c :: (cs ++ r)) = ((c :: cs).map digitVal, r) := by
      have h5 := htd
      rw [hcons] at h5
      simpa using h5
    rw [htd2]
    rw [if_neg (by simp)]
    have hval2 : digitsVal ((c :: cs).map digitVal) = y.natAbs := by
      rw [← hcons]
      exact hval
    rw [hval2]
    have : ((y.natAbs : Nat) : Int) = y := by omega
    rw [this]

theorem parseFrac_print (ns : Nat) (hns : ns < 1000000000) (r : List Char)
    (hr1 : ∀ c, r.head? = some c → ¬ (c = '.'))
    (hr2 : ∀ c, r.head? = some c → isDigit c = false) :
    parseFrac (fracChars ns ++ r) = .ok (ns, r) := by
  by_cases h0 : ns = 0
  · subst h0
    unfold fracChars
    rw [if_pos rfl]
    simp only [List.nil_append]
    cases r with
    | nil => rfl
    | cons c rest =>
      dsimp only [parseFrac]
      rw [if_neg (hr1 c rfl)]
  · unfold fracChars
    rw [if_neg h0]
    obtain ⟨hnd, hne, hnv⟩ := natDigits_spec ns
    obtain ⟨hp1, hp2, hp3, hp4⟩ := padLeft_spec 9 (natDigits ns) hnd
    have hlen : (padLeft 9 (natDigits ns)).length = 9 :=
      hp4 (natDigits_len 9 ns (by omega) (by omega))
    simp only [List.cons_append]
    dsimp only [parseFrac]
    rw [if_pos rfl, takeDigits_append _ r hp1 hr2]
    have hmaplen : ((padLeft 9 (natDigits ns)).map digitVal).length = 9 := by
      simp [hlen]
    have hmapne : (padLeft 9 (natDigits ns)).map digitVal ≠ [] := by
      intro hnil
      rw [hnil] at hmaplen
      simp at hmaplen
    rw [if_neg (by simpa using hmapne)]
    have htake : ((padLeft 9 (natDigits ns)).map digitVal).take 9
        = (padLeft 9 (natDigits ns)).map digitVal :=
      List.take_of_length_le (by omega)
    rw [htake, hmaplen, hp2, hnv]
    norm_num

theorem parseYear_dash (y : Int) (r : List Char) :
    parseYearChars (yearChars y ++ '-' :: r) = .ok (y, '-' :: r) :=
  parseYear_spec y ('-' :: r) (by
    intro c hc
    simp at hc
    subst hc
    decide)

theorem parseFrac_printZ (ns : Nat) (hns : ns < 1000000000) :
    parseFrac (fracChars ns ++ ['Z']) = .ok (ns, ['Z']) :=
  parseFrac_print ns hns ['Z']
    (by
      intro c hc
      simp at hc
      subst hc
      decide)
    (by
      intro c hc
      simp at hc
      subst hc
      decide)

theorem daysInMonth_le (y : Int) (m : Nat) : daysInMonth y m ≤ 31 := by
  unfold daysInMonth
  split_ifs <;> omega

/-- `parseRfc3339` on a string of the printed shape reduces to the
validation cascade over the parsed components. -/
theorem parse_components (y : Int) (m d hh mi ss ns : Nat)
    (hm : m < 100) (hd : d < 100) (hhb : hh < 100) (hmib : mi < 100)
    (hssb : ss < 100) (hns : ns < 1000000000) :
    parseRfc3339 (yearChars y ++ '-' :: (pad2 m ++ '-' :: (pad2 d
        ++ 'T' :: (pad2 hh ++ ':' :: (pad2 mi ++ ':' :: (pad2 ss
        ++ (fracChars ns ++ ['Z'])))))))
      = (if ¬ (1 ≤ m ∧ m ≤ 12) then .error .outOfRange
         else if ¬ (1 ≤ d ∧ d ≤ daysInMonth y m) then .error .outOfRange
         else if ¬ (hh ≤ 23 ∧ mi ≤ 59 ∧ ss ≤ 59) then .error .outOfRange
         else if ¬ (MIN_DAYS ≤ daysFromCivil y m d ∧ daysFromCivil y m d ≤ MAX_DAYS)
         then .error .outOfRange
         else
           let secs := daysFromCivil y m d * 86400 + (3600 * hh + 60 * mi + ss : Nat) - 0
           if ¬ (MIN_DAYS ≤ secs / 86400 ∧ secs / 86400 ≤ MAX_DAYS)
           then .error .outOfRange
           else .ok ⟨secs, ns⟩) := by
  unfold parseRfc3339
  simp only [parseYear_dash, expectChar_cons, parse2_pad2 m hm, parse2_pad2 d hd,
    parse2_pad2 hh hhb, parse2_pad2 mi hmib, parse2_pad2 ss hssb, expectSep_T,
    parseFrac_printZ ns hns, parseOffset_Z]
  rw [if_neg (by simp)]

/-- Parsing the printed RFC-3339 form returns the original instant. -/
theorem parse_print (x : DateTime) (h1 : MIN_DAYS ≤ x.secs / 86400)
    (h2 : x.secs / 86400 ≤ MAX_DAYS) (h3 : x.nsecs < 1000000000) :
    parseRfc3339 (toRfc3339Chars x) = .ok x := by
  have hsodnn : 0 ≤ x.secs % 86400 := Int.emod_nonneg _ (by norm_num)
  have hsodlt : x.secs % 86400 < 86400 := Int.emod_lt_of_pos _ (by norm_num)
  have hsodb : (x.secs % 86400).toNat < 86400 := by omega
  obtain ⟨hv1, hv2, hv3, hv4⟩ := civil_valid (x.secs / 86400)
  have hdle := daysInMonth_le (civilFromDays (x.secs / 86400)).1
    (civilFromDays (x.secs / 86400)).2.1
  unfold toRfc3339Chars
  dsimp only
  rw [parse_components _ _ _ _ _ _ _ (by omega) (by omega) (by omega) (by omega)
    (by omega) h3]
  rw [if_neg (not_not_intro ⟨hv1, hv2⟩)]
  rw [if_neg (not_not_intro ⟨hv3, hv4⟩)]
  rw [if_neg (not_not_intro ⟨by omega, by omega, by omega⟩)]
  rw [civil_roundtrip (x.secs / 86400)]
  rw [if_neg (not_not_intro ⟨h1, h2⟩)]
  dsimp only
  have hsum : 3600 * ((x.secs % 86400).toNat / 3600)
      + 60 * ((x.secs % 86400).toNat % 3600 / 60)
      + (x.secs % 86400).toNat % 60 = (x.secs % 86400).toNat := by
    omega
  rw [hsum]
  have hsecs : x.secs / 86400 * 86400 + (((x.secs % 86400).toNat : Nat) : Int) - 0
      = x.secs := by
    omega
  rw [hsecs]
  rw [if_neg (not_not_intro ⟨h1, h2⟩)]

/-- **C3.** The timestamp codec exposes an encoder producing the RFC-3339
string form of the instant, and for every `DateTime` value `x` in
chrono's representable range, decoding the encoded string gives back `x`:
`timestamp_from_string (timestamp_to_rfc3339 x) = ok x`. -/
theorem c3_timestamp_roundtrip (x : DateTime) (h1 : MIN_DAYS ≤ x.secs / 86400)
    (h2 : x.secs / 86400 ≤ MAX_DAYS) (h3 : x.nsecs < 1000000000) :
    timestamp_from_string (timestamp_to_rfc3339 x) = .ok x := by
  unfold timestamp_from_string timestamp_to_rfc3339
  rw [show (String.mk (toRfc3339Chars x)).toList = toRfc3339Chars x from rfl]
  exact parse_print x h1 h2 h3

/-- Witness for C3 at the instant `2019-01-01T00:00:00Z`. -/
theorem c3_timestamp_roundtrip_witness :
    timestamp_from_string (timestamp_to_rfc3339 ⟨1546300800, 0⟩)
      = .ok ⟨1546300800, 0⟩ :=
  c3_timestamp_roundtrip ⟨1546300800, 0⟩ (by decide) (by decide) (by decide)

/-- **C4.** Decoding the integer 0 as epoch seconds yields the same
`DateTime` as decoding the string `1970-01-01T00:00:00Z`, and decoding
1546300800 yields the same `DateTime` as decoding
`2019-01-01T00:00:00Z`. -/
theorem c4_epoch_examples :
    (dtVisitI64 0 = .ok ⟨0, 0⟩ ∧
      timestamp_from_string "1970-01-01T00:00:00Z" = .ok ⟨0, 0⟩) ∧
    (dtVisitI64 1546300800 = .ok ⟨1546300800, 0⟩ ∧
      timestamp_from_string "2019-01-01T00:00:00Z" = .ok ⟨1546300800, 0⟩) := by
  refine ⟨⟨?_, ?_⟩, ?_, ?_⟩ <;> decide

/-- **C5, counterexample.** The claim says u64 values not representable
as a non-negative i64 are rejected; in fact `u64::MAX` is accepted: the
cast wraps to `-1` and decoding succeeds, yielding one second before the
epoch. -/
theorem c5_counterexample :
    2 ^ 63 ≤ (2 ^ 64 - 1 : Nat) ∧
      dtVisitU64 (2 ^ 64 - 1) = .ok ⟨-1, 0⟩ := by
  exact ⟨by decide, by decide⟩

theorem dtVisitI64_ok (v : Int) (dt : DateTime) (h : dtVisitI64 v = .ok dt) :
    dt = ⟨v, 0⟩ := by
  cases hu : utcTimestampOpt v with
  | notFound =>
    simp only [dtVisitI64, hu] at h
    exact Except.noConfusion h
  | single dt2 =>
    simp only [dtVisitI64, hu, Except.ok.injEq] at h
    subst h
    unfold utcTimestampOpt at hu
    split_ifs at hu with h2
    injection hu with h3
    exact h3.symm
  | ambiguous d1 d2 =>
    unfold utcTimestampOpt at hu
    split_ifs at hu

/-- **C5 (amended).** `visit_u64` reinterprets the unsigned value by a
plain two's-complement cast with no range check: for `v < 2^63` it agrees
with the signed decoder at the same numeric value, and for `v ≥ 2^63` it
decodes the wrapped negative value `v - 2^64` (succeeding, with negative
seconds, whenever that value is in range) instead of rejecting. -/
theorem c5_amended_wrapping (v : Nat) (hv : v < 2 ^ 64) :
    dtVisitU64 v = dtVisitI64 (if v < 2 ^ 63 then (v : Int) else (v : Int) - 2 ^ 64) ∧
    (v < 2 ^ 63 → dtVisitU64 v = dtVisitI64 (v : Int)) ∧
    (2 ^ 63 ≤ v → dtVisitU64 v = dtVisitI64 ((v : Int) - 2 ^ 64)) ∧
    (2 ^ 63 ≤ v → ∀ dt, dtVisitU64 v = .ok dt → dt.secs < 0) := by
  refine ⟨rfl, ?_, ?_, ?_⟩
  · intro h
    unfold dtVisitU64
    rw [if_pos h]
  · intro h
    unfold dtVisitU64
    rw [if_neg (by omega)]
  · intro h dt hdt
    unfold dtVisitU64 at hdt
    rw [if_neg (by omega)] at hdt
    rw [dtVisitI64_ok _ _ hdt]
    show (v : Int) - 2 ^ 64 < 0
    omega

/-- Witness for C5 (amended) at `v = 5`. -/
theorem c5_amended_wrapping_witness : dtVisitU64 5 = dtVisitI64 ((5 : Nat) : Int) :=
  (c5_amended_wrapping 5 (by decide)).2.1 (by decide)

/-- **C9.** The ambiguous-timestamp branch of `visit_i64` is unreachable:
for every i64 input `v`, decoding either succeeds or fails with the
not-a-legal-timestamp error; the ambiguous-timestamp error is never
returned. -/
theorem c9_ambiguous_unreachable (v : Int) (hlo : -(2 ^ 63) ≤ v) (hhi : v < 2 ^ 63) :
    (∃ dt, dtVisitI64 v = .ok dt) ∨
      dtVisitI64 v
        = .error (.custom ("value is not a legal timestamp: " ++ toString v)) := by
  unfold dtVisitI64 utcTimestampOpt
  split_ifs with h
  · exact Or.inl ⟨⟨v, 0⟩, rfl⟩
  · exact Or.inr rfl

/-- Witness for C9 at `v = 0`. -/
theorem c9_ambiguous_unreachable_witness :
    (∃ dt, dtVisitI64 0 = .ok dt) ∨
      dtVisitI64 0
        = .error (.custom ("value is not a legal timestamp: " ++ toString (0 : Int))) :=
  c9_ambiguous_unreachable 0 (by decide) (by decide)

/-- The diagnostic message a serde error renders to
(`serde::de::Error`): `invalid_value` and `invalid_length` have fixed
message shells around their payload; `custom` is the message itself. -/
def SerdeErr.message : SerdeErr → String
  | .invalidValueChar c expected =>
      "invalid value: character " ++ String.mk [Char.ofNat c] ++ ", expected " ++ expected
  | .invalidLength len expected =>
      "invalid length " ++ toString len ++ ", expected " ++ expected
  | .custom msg => msg

/-- **C8, counterexample.** `Oid::from_hex` maps the hex error to `()`:
`identifier_from_hex("abc")` fails with a bare unit error that carries no
diagnostic message at all. -/
theorem c8_counterexample_bare_error :
    Oid.from_hex (strBytes "abc") = .error () := by decide

theorem dtVisitI64_message (v : Int) (e : SerdeErr) (h : dtVisitI64 v = .error e) :
    0 < e.message.length := by
  cases hu : utcTimestampOpt v with
  | notFound =>
    simp only [dtVisitI64, hu, Except.error.injEq] at h
    subst h
    show 0 < (("value is not a legal timestamp: " ++ toString v) : String).length
    rw [String.length_append]
    have h32 : ("value is not a legal timestamp: " : String).length = 32 := by decide
    omega
  | single dt =>
    simp only [dtVisitI64, hu] at h
    exact Except.noConfusion h
  | ambiguous d1 d2 =>
    unfold utcTimestampOpt at hu
    split_ifs at hu

/-- **C8 (amended).** Every decoding failure through the serde
deserialization paths of both codecs carries a nonempty human-readable
diagnostic message; `Oid::from_hex` alone returns a message-free unit
error. -/
theorem c8_amended_messages :
    (∀ s e, oidVisitStr s = .error e → 0 < e.message.length) ∧
    (∀ s e, oidVisitBytes s = .error e → 0 < e.message.length) ∧
    (∀ s e, dtVisitStr s = .error e → 0 < e.message.length) ∧
    (∀ v e, dtVisitI64 v = .error e → 0 < e.message.length) ∧
    (∀ v e, dtVisitU64 v = .error e → 0 < e.message.length) ∧
    (∀ s r, Oid.from_hex s = .error r → r = ()) := by
  refine ⟨?_, ?_, ?_, dtVisitI64_message, ?_, ?_⟩
  · intro s e h
    unfold oidVisitStr at h
    rcases harr : arrayFromHex20 s with e2 | bs
    · rw [harr] at h
      rcases e2 with ⟨c, j⟩ | _ | _ <;>
        simp only [Except.error.injEq] at h <;>
        subst h <;>
        (show 0 < _ )
      · show 0 < (("invalid value: character " ++ String.mk [Char.ofNat c]
          ++ ", expected " ++ "string with only hexadecimal characters") : String).length
        rw [String.length_append, String.length_append, String.length_append]
        have : ("invalid value: character " : String).length = 25 := by decide
        omega
      · show 0 < (("invalid length " ++ toString s.length ++ ", expected "
          ++ "hex string with an even length") : String).length
        rw [String.length_append, String.length_append, String.length_append]
        have : ("invalid length " : String).length = 15 := by decide
        omega
      · show 0 < (("invalid length " ++ toString s.length ++ ", expected "
          ++ "hex string with a valid length") : String).length
        rw [String.length_append, String.length_append, String.length_append]
        have : ("invalid length " : String).length = 15 := by decide
        omega
    · rw [harr] at h
      exact Except.noConfusion h
  · intro s e h
    unfold oidVisitBytes at h
    split_ifs at h with hl
    simp only [Except.error.injEq] at h
    subst h
    show 0 < (("invalid length " ++ toString s.length ++ ", expected "
      ++ "20 bytes") : String).length
    rw [String.length_append, String.length_append, String.length_append]
    have h15 : ("invalid length " : String).length = 15 := by decide
    omega
  · intro s e h
    unfold dtVisitStr at h
    rcases hp : parseRfc3339 s with e2 | dt
    · rw [hp] at h
      simp only [Except.error.injEq] at h
      subst h
      show 0 < (renderParseErr e2).length
      rcases e2 <;> decide
    · rw [hp] at h
      exact Except.noConfusion h
  · intro v e h
    unfold dtVisitU64 at h
    exact dtVisitI64_message _ e h
  · intro s r h
    rfl

/-- Witness for C8 (amended): the error produced for the odd-length
input `"abc"` carries a nonempty message. -/
theorem c8_amended_messages_witness :
    0 < (SerdeErr.invalidLength 3 "hex string with an even length").message.length :=
  c8_amended_messages.1 (strBytes "abc")
    (SerdeErr.invalidLength 3 "hex string with an even length") (by decide)
